import Mathlib

/-!
Verification of the grove-skills resolution-and-distribution engine.

This file shallowly embeds the engine of the repository: the contract
validator (pkg/skills/skills.go, ValidateSkillContent and
parseSkillFrontmatter), the multi-source resolver (pkg/skills/sync.go
ListSkillSources; pkg/skills/skills.go ListSkillsWithService and
GetSkillWithService), the installer (cmd/skills.go installSkill), the
syncer (cmd/skills.go newSkillsSyncCmd standard path and pruneSkills),
and the ecosystem distributor (cmd/skills.go newSkillsSyncCmd ecosystem
path).

Filesystem directories are modelled as association lists from entry
name to content; Go maps built by sequential overwrite are modelled as
functions built by sequential update.  External collaborators
(grove-core workspace lookup, the YAML library) are modelled at their
interface boundary, each marked in its doc comment.
-/

/-- Association-list lookup: the value of the first pair whose key matches. -/
def alookup {α : Type} (k : String) : List (String × α) → Option α
  | [] => none
  | (k₀, v) :: rest => if k = k₀ then some v else alookup k rest

/-- Association-list erase: drops every pair whose key matches, as Go RemoveAll
drops a directory entry. -/
def aerase {α : Type} (k : String) (l : List (String × α)) : List (String × α) :=
  l.filter (fun p => decide (p.1 ≠ k))

/-- Parsed YAML frontmatter of a SKILL.md file (SkillMetadata in skills.go). -/
structure SkillMetadata where
  name : String
  description : String
deriving DecidableEq

/-- Validation failure carrying the skill name and all collected violations
(ValidationError in skills.go). -/
structure ValidationError where
  skillName : String
  errors : List String
deriving DecidableEq

/-- Characters allowed inside a skill-name segment: lowercase letters and digits. -/
def isNameChar (c : Char) : Bool := c.isLower || c.isDigit

/-- Test whether the second character list begins with the first. -/
def charsBeginWith : List Char → List Char → Bool
  | [], _ => true
  | _ :: _, [] => false
  | p :: ps, c :: cs => p == c && charsBeginWith ps cs

/-- Split a character list on every occurrence of one separator character,
keeping empty segments, as Go and Lean string splitting both do. -/
def splitOnChar (ch : Char) : List Char → List (List Char)
  | [] => [[]]
  | c :: cs =>
    let rest := splitOnChar ch cs
    if c = ch then [] :: rest
    else
      match rest with
      | [] => [[c]]
      | seg :: more => (c :: seg) :: more

/-- Text strictly before the first occurrence of a pattern, or none when the
pattern does not occur, matching the index search of bytes.Index. -/
def textBeforePattern (pat : List Char) : List Char → Option (List Char)
  | [] => if pat.isEmpty then some [] else none
  | c :: cs =>
    if charsBeginWith pat (c :: cs) then some []
    else
      match textBeforePattern pat cs with
      | some pre => some (c :: pre)
      | none => none

/-- Whitespace trim on both ends of a character list. -/
def trimChars (l : List Char) : List Char :=
  ((l.dropWhile Char.isWhitespace).reverse.dropWhile Char.isWhitespace).reverse

/-- Byte length of a string under UTF-8, matching the Go len builtin on
strings. -/
def utf8Len (s : String) : Nat := s.data.foldl (fun n c => n + c.utf8Size) 0

/-- Skill-name pattern of skills.go (nameRegex): one or more nonempty
lowercase-alphanumeric segments joined by single hyphens.  Splitting on the
hyphen makes every leading, trailing or doubled hyphen produce an empty
segment, exactly the strings the anchored regular expression rejects. -/
def nameRegexMatches (s : String) : Bool :=
  (splitOnChar '-' s.data).all (fun seg => !seg.isEmpty && seg.all isNameChar)

/-- Violation message for a missing name field (text abbreviated). -/
def msgMissingName : String := "missing required field name"

/-- Violation message for a name longer than 64 bytes (text abbreviated). -/
def msgNameTooLong : String := "name exceeds 64 characters"

/-- Violation message for a name failing the naming pattern (text abbreviated). -/
def msgNamePattern : String := "name must be lowercase alphanumeric with single hyphen separators"

/-- Violation message for a manifest name disagreeing with the directory name
(text abbreviated). -/
def msgNameMismatch : String := "name does not match directory name"

/-- Violation message for a missing description field (text abbreviated). -/
def msgMissingDescription : String := "missing required field description"

/-- Violation message for a description longer than 1024 bytes (text abbreviated). -/
def msgDescriptionTooLong : String := "description exceeds 1024 characters"

/-- Violation collection of ValidateSkillContent (skills.go lines 47 to 69):
the name checks run only when the name is nonempty, the description length
check only when the description is nonempty, and every triggered violation is
appended rather than returned early. -/
def collectViolations (metadata : SkillMetadata) (expectedName : String) : List String :=
  let nameErrors : List String :=
    if metadata.name = "" then [msgMissingName]
    else
      (if utf8Len metadata.name > 64 then [msgNameTooLong] else []) ++
      (if nameRegexMatches metadata.name then [] else [msgNamePattern]) ++
      (if expectedName ≠ "" ∧ metadata.name ≠ expectedName then [msgNameMismatch] else [])
  let descErrors : List String :=
    if metadata.description = "" then [msgMissingDescription]
    else if utf8Len metadata.description > 1024 then [msgDescriptionTooLong]
    else []
  nameErrors ++ descErrors

/-- Modelled from the spec: the external YAML library restricted to the flat
key: value documents of section 6 of the manifest format.  A key is read from
the first line starting with the key and a colon; a missing key yields the
zero value, as Go unmarshalling does. -/
def yamlValue (lines : List (List Char)) (key : List Char) : List Char :=
  match lines.find? (fun l => charsBeginWith (key ++ [':']) l) with
  | some l => trimChars (l.drop (key.length + 1))
  | none => []

/-- Modelled from the spec: flat parse of a frontmatter block into the two
manifest fields. -/
def yamlParse (frontmatter : List Char) : SkillMetadata :=
  let lines := splitOnChar '\n' frontmatter
  { name := String.mk (yamlValue lines "name".data)
    description := String.mk (yamlValue lines "description".data) }

/-- Frontmatter extraction of parseSkillFrontmatter (skills.go lines 79 to 100):
the content must start with the delimiter, and the block runs to the first
newline-delimiter occurrence; no closing delimiter is a parse failure. -/
def parseSkillFrontmatter (content : String) : Option SkillMetadata :=
  let cs := content.data
  if charsBeginWith "---".data cs then
    match textBeforePattern "\n---".data (cs.drop 3) with
    | some fm => some (yamlParse fm)
    | none => none
  else none

/-- Outcome of ValidateSkillContent: a frontmatter parse failure, a
ValidationError carrying all violations, or success. -/
inductive ValidateResult where
  | parseError : ValidateResult
  | invalid : ValidationError → ValidateResult
  | ok : ValidateResult
deriving DecidableEq

/-- ValidateSkillContent (skills.go lines 41 to 76): parse the frontmatter,
collect every violation, and return them all in one ValidationError. -/
def ValidateSkillContent (content : String) (expectedName : String) : ValidateResult :=
  match parseSkillFrontmatter content with
  | none => .parseError
  | some metadata =>
    let errs := collectViolations metadata expectedName
    if errs.isEmpty then .ok else .invalid ⟨expectedName, errs⟩

/-- Files of one skill directory: relative path to content.  A directory on
disk may exist and hold zero files. -/
abbrev SkillFiles := List (String × String)

/-- Listing of one source directory: skill name to that skill directory. -/
abbrev SourceDir := List (String × SkillFiles)

/-- Source environment of one invocation: the embedded builtin tree plus the
three on-disk sources.  A source is none when its directory cannot be
determined or does not exist, which the code treats as the source being
unavailable rather than an error. -/
structure Env where
  builtin : SourceDir
  userDir : Option SourceDir
  ecosystemDir : Option SourceDir
  projectDir : Option SourceDir
deriving DecidableEq

/-- Names listed by one optional on-disk source. -/
def dirNames : Option SourceDir → List String
  | none => []
  | some d => d.map Prod.fst

/-- Names of the embedded builtin skills. -/
def builtinNames (env : Env) : List String := env.builtin.map Prod.fst

/-- Names of the user-source skills. -/
def userNames (env : Env) : List String := dirNames env.userDir

/-- Names of the notebook-ecosystem skills. -/
def ecosystemNames (env : Env) : List String := dirNames env.ecosystemDir

/-- Names of the notebook-project skills. -/
def projectNames (env : Env) : List String := dirNames env.projectDir

/-- Source kinds of sync.go (SourceType). -/
inductive SourceType where
  | builtin : SourceType
  | user : SourceType
  | ecosystem : SourceType
  | project : SourceType
deriving DecidableEq

/-- Precedence rank of a source kind: builtin lowest, project highest. -/
def SourceType.rank : SourceType → Nat
  | .builtin => 0
  | .user => 1
  | .ecosystem => 2
  | .project => 3

/-- Upsert of one tier into the accumulated name-to-source map, as the Go
loops over ReadDir entries write into the shared map, overwriting lower-rank
entries. -/
def addTier {α : Type} (names : List String) (label : α) (acc : String → Option α) :
    String → Option α :=
  names.foldl (fun m nm => fun q => if q = nm then some label else m q) acc

/-- ListSkillSources (sync.go lines 83 to 112): builtin, then user, then
ecosystem, then project, each tier overwriting the previous ones. -/
def ListSkillSources (env : Env) : String → Option SourceType :=
  addTier (projectNames env) SourceType.project
    (addTier (ecosystemNames env) SourceType.ecosystem
      (addTier (userNames env) SourceType.user
        (addTier (builtinNames env) SourceType.builtin (fun _ => none))))

/-- Source map of ListSkillsWithService (skills.go lines 132 to 172): builtin,
then user, then the notebook skills of the current workspace; the
notebook-ecosystem tier is not consulted here. -/
def ListSkillsWithService (env : Env) : String → Option String :=
  addTier (projectNames env) "notebook"
    (addTier (userNames env) "user"
      (addTier (builtinNames env) "builtin" (fun _ => none)))

/-- Name list returned by ListSkillsWithService: the keys of its source map.
The code sorts the names for display; only membership matters here. -/
def skillNames (env : Env) : List String :=
  (builtinNames env ++ userNames env ++ projectNames env).dedup

/-- Read of one skill from one optional source, as readSkillFromDisk and
readSkillFromFS (skills.go lines 210 to 256) behave: failure when the source
is unavailable, the subdirectory is absent, or the walk finds zero files. -/
def readSkillFromDir (dir : Option SourceDir) (name : String) : Option SkillFiles :=
  match dir with
  | none => none
  | some entries =>
    match alookup name entries with
    | none => none
    | some files => if files.isEmpty then none else some files

/-- GetSkillWithService (skills.go lines 184 to 207): try the notebook skills
of the current workspace, then the user source, then the embedded builtin
tree, returning the first successful read. -/
def GetSkillWithService (env : Env) (name : String) : Option SkillFiles :=
  match readSkillFromDir env.projectDir name with
  | some files => some files
  | none =>
    match readSkillFromDir env.userDir name with
    | some files => some files
    | none => readSkillFromDir (some env.builtin) name

/-- Top-level entry of a destination root: an installed directory or a plain
file. -/
inductive FsEntry where
  | dir : SkillFiles → FsEntry
  | file : String → FsEntry
deriving DecidableEq

/-- Destination root: association list from top-level entry name to entry. -/
abbrev DestRoot := List (String × FsEntry)

/-- Outcome of one installSkill call. -/
inductive InstallOutcome where
  | success : InstallOutcome
  | errNotFound : InstallOutcome
  | errParse : InstallOutcome
  | errValidation : ValidationError → InstallOutcome
  | errMissingManifest : InstallOutcome
  | errAlreadyExists : InstallOutcome
deriving DecidableEq

/-- Validation step of installSkill (cmd/skills.go lines 503 to 511): skipped
entirely when skipValidation is set; otherwise the SKILL.md entry must exist
and validate.  none means the gate passes. -/
def validationGate (skillFiles : SkillFiles) (name : String) (skipValidation : Bool) :
    Option InstallOutcome :=
  if skipValidation then none
  else
    match alookup "SKILL.md" skillFiles with
    | some content =>
      match ValidateSkillContent content name with
      | .parseError => some .errParse
      | .invalid e => some (.errValidation e)
      | .ok => none
    | none => some .errMissingManifest

/-- installSkill (cmd/skills.go lines 496 to 543): fetch the skill through
GetSkillWithService, run the validation gate, then check the destination
entry: existing entry without force aborts with no filesystem change;
otherwise the existing entry is removed and every file written fresh.  The
pair carries the outcome and the destination root after the call; every
failure path returns before any write, so it carries the root unchanged. -/
def installSkill (env : Env) (root : DestRoot) (name : String)
    (force skipValidation : Bool) : InstallOutcome × DestRoot :=
  match GetSkillWithService env name with
  | none => (.errNotFound, root)
  | some skillFiles =>
    match validationGate skillFiles name skipValidation with
    | some e => (e, root)
    | none =>
      if (alookup name root).isSome then
        if force then (.success, aerase name root ++ [(name, .dir skillFiles)])
        else (.errAlreadyExists, root)
      else (.success, aerase name root ++ [(name, .dir skillFiles)])

/-- One iteration of the sync loop (cmd/skills.go lines 322 to 328): install
with force set, record the outcome, and continue regardless of failure. -/
def syncStep (env : Env) (skipValidation : Bool)
    (acc : DestRoot × List (String × InstallOutcome)) (name : String) :
    DestRoot × List (String × InstallOutcome) :=
  let result := installSkill env acc.1 name true skipValidation
  (result.2, acc.2 ++ [(name, result.1)])

/-- Install phase of the standard sync (cmd/skills.go lines 316 to 328):
every resolved name is attempted in order. -/
def syncInstallAll (env : Env) (root : DestRoot) (skipValidation : Bool) :
    DestRoot × List (String × InstallOutcome) :=
  (skillNames env).foldl (syncStep env skipValidation) (root, [])

/-- pruneSkills (cmd/skills.go lines 347 to 361): remove every top-level
directory entry whose name is not in the installed set; entries that are not
directories are never touched. -/
def pruneSkills (root : DestRoot) (installed : List String) : DestRoot :=
  root.filter (fun p =>
    match p.2 with
    | .dir _ => installed.contains p.1
    | .file _ => true)

/-- Standard sync command path (cmd/skills.go lines 309 to 334): install every
resolved skill with force set, then prune when requested.  The installed set
handed to pruneSkills contains every resolved name, including names whose
install failed. -/
def syncCmd (env : Env) (root : DestRoot) (prune skipValidation : Bool) :
    DestRoot × List (String × InstallOutcome) :=
  let r := syncInstallAll env root skipValidation
  (if prune then pruneSkills r.1 (skillNames env) else r.1, r.2)

/-- Workspace node fields used by the ecosystem sync (grove-core
WorkspaceNode, consumed at its interface boundary). -/
structure WorkspaceNode where
  name : String
  path : String
  kind : String
  parentEcosystemPath : String
  rootEcosystemPath : String
deriving DecidableEq

/-- Modelled from the spec: the grove-core kind predicate marking a workspace
as an ecosystem root rather than a plain project. -/
def WorkspaceNode.isEcosystem (n : WorkspaceNode) : Bool := n.kind == "ecosystem"

/-- Modelled from the spec: the grove-core kind predicate marking a workspace
as a worktree. -/
def WorkspaceNode.isWorktree (n : WorkspaceNode) : Bool := n.kind == "worktree"

/-- Workspace provider state (grove-core Provider, consumed at its interface
boundary): all known workspaces plus the lookup result for the current
directory. -/
structure ProviderState where
  all : List WorkspaceNode
  current : Option WorkspaceNode
deriving DecidableEq

/-- Child selection of the ecosystem sync (cmd/skills.go lines 262 to 271):
workspaces whose direct parent-ecosystem path or transitive root-ecosystem
path equals the ecosystem path, excluding worktrees and the ecosystem node
itself. -/
def childProjects (ps : ProviderState) (node : WorkspaceNode) : List WorkspaceNode :=
  ps.all.filter (fun p =>
    (p.parentEcosystemPath == node.path || p.rootEcosystemPath == node.path)
      && !p.isWorktree && p.path != node.path)

/-- Outcome of the ecosystem sync path. -/
inductive EcoSyncResult where
  | errNoProvider : EcoSyncResult
  | errNoWorkspace : EcoSyncResult
  | errNotEcosystem : EcoSyncResult
  | doneNoSkills : EcoSyncResult
  | doneNoChildren : EcoSyncResult
  | synced : List WorkspaceNode → EcoSyncResult
deriving DecidableEq

/-- Ecosystem sync path (cmd/skills.go lines 233 to 307): provider and current
workspace must exist and the current workspace must be an ecosystem, all
checked before any install; an empty skill list or an empty child list
returns success without installing; otherwise every child project is
synced. -/
def ecosystemSync (provider : Option ProviderState) (env : Env) : EcoSyncResult :=
  match provider with
  | none => .errNoProvider
  | some ps =>
    match ps.current with
    | none => .errNoWorkspace
    | some node =>
      if !node.isEcosystem then .errNotEcosystem
      else if (skillNames env).isEmpty then .doneNoSkills
      else
        let children := childProjects ps node
        if children.isEmpty then .doneNoChildren
        else .synced children

/-- Scope-requirement failures of the ecosystem sync: every other outcome is a
successful run. -/
def EcoSyncResult.isScopeError : EcoSyncResult → Bool
  | .errNoProvider => true
  | .errNoWorkspace => true
  | .errNotEcosystem => true
  | .doneNoSkills => false
  | .doneNoChildren => false
  | .synced _ => false

/-- Directory listing of one source tier. -/
def tierDir (env : Env) : SourceType → Option SourceDir
  | .builtin => some env.builtin
  | .user => env.userDir
  | .ecosystem => env.ecosystemDir
  | .project => env.projectDir

/-- Names offered by one source tier. -/
def tierNames (env : Env) : SourceType → List String
  | .builtin => builtinNames env
  | .user => userNames env
  | .ecosystem => ecosystemNames env
  | .project => projectNames env

/-- Membership of a name in one source tier. -/
abbrev tierHas (env : Env) (t : SourceType) (n : String) : Prop := n ∈ tierNames env t

/-- Read of one skill from one tier, with the zero-files failure of the
readers. -/
def tierFiles (env : Env) (t : SourceType) (n : String) : Option SkillFiles :=
  readSkillFromDir (tierDir env t) n

/-- Source label strings used by ListSkillsWithService for the three tiers it
consults. -/
def tierLabel : SourceType → String
  | .builtin => "builtin"
  | .user => "user"
  | .ecosystem => "ecosystem"
  | .project => "notebook"

/-- Environment with one skill named foo offered by the user and the
notebook-ecosystem sources with distinct content. -/
def envUserEco : Env :=
  { builtin := []
    userDir := some [("foo", [("SKILL.md", "user copy")])]
    ecosystemDir := some [("foo", [("SKILL.md", "ecosystem copy")])]
    projectDir := none }

/-- Environment offering no skill from any source. -/
def envEmpty : Env :=
  { builtin := [], userDir := none, ecosystemDir := none, projectDir := none }

/-- Manifest content whose name field violates the naming pattern and
disagrees with the directory name bad. -/
def badManifest : String := "---\nname: Bad_Name\ndescription: d\n---\nbody"

/-- Environment offering one builtin skill bad with an invalid manifest. -/
def envBadSkill : Env :=
  { builtin := [("bad", [("SKILL.md", badManifest)])]
    userDir := none, ecosystemDir := none, projectDir := none }

/-- Environment offering one builtin skill x that has a file but no SKILL.md
manifest entry. -/
def envNoManifest : Env :=
  { builtin := [("x", [("README.md", "hi")])]
    userDir := none, ecosystemDir := none, projectDir := none }

/-- Manifest content that parses and satisfies every validation rule for a
skill named foo. -/
def goodManifest : String := "---\nname: foo\ndescription: d\n---\nbody"

/-- Environment whose notebook-project source lists foo as an empty directory
while the user source holds a real copy of foo. -/
def envEmptyProjectFoo : Env :=
  { builtin := []
    userDir := some [("foo", [("SKILL.md", goodManifest)])]
    ecosystemDir := none
    projectDir := some [("foo", [])] }

/-- Environment offering one valid builtin skill foo. -/
def envGoodSkill : Env :=
  { builtin := [("foo", [("SKILL.md", goodManifest)])]
    userDir := none, ecosystemDir := none, projectDir := none }

/-- Ecosystem workspace node used by concrete distributor runs. -/
def ecoNode : WorkspaceNode :=
  { name := "eco", path := "/eco", kind := "ecosystem"
    parentEcosystemPath := "", rootEcosystemPath := "" }

/-- Child project node of ecoNode used by concrete distributor runs. -/
def childNode : WorkspaceNode :=
  { name := "proj", path := "/eco/proj", kind := "project"
    parentEcosystemPath := "/eco", rootEcosystemPath := "/eco" }

/-- Provider state whose current workspace is ecoNode and which knows the
ecosystem node plus one child project. -/
def ecoProvider : ProviderState :=
  { all := [ecoNode, childNode], current := some ecoNode }

/-! Helper lemmas about association lists and the tier upsert. -/

theorem alookup_append {α : Type} (k : String) (l₁ l₂ : List (String × α)) :
    alookup k (l₁ ++ l₂) =
      match alookup k l₁ with
      | some v => some v
      | none => alookup k l₂ := by
  induction l₁ with
  | nil => simp [alookup]
  | cons hd tl ih =>
    obtain ⟨k₀, v⟩ := hd
    by_cases h : k = k₀ <;> simp [alookup, h, ih]

theorem alookup_aerase_self {α : Type} (k : String) (l : List (String × α)) :
    alookup k (aerase k l) = none := by
  induction l with
  | nil => simp [alookup, aerase]
  | cons hd tl ih =>
    obtain ⟨k₀, v⟩ := hd
    by_cases h : k₀ = k
    · simp [aerase, h] at ih ⊢
      exact ih
    · have h' : k ≠ k₀ := fun hh => h hh.symm
      simp [aerase, h, alookup, h'] at ih ⊢
      exact ih

theorem alookup_aerase_ne {α : Type} (k k₀ : String) (l : List (String × α))
    (h : k ≠ k₀) : alookup k (aerase k₀ l) = alookup k l := by
  induction l with
  | nil => simp [alookup, aerase]
  | cons hd tl ih =>
    obtain ⟨k₁, v⟩ := hd
    by_cases h₁ : k₁ = k₀
    · subst h₁
      simp [aerase, alookup, h] at ih ⊢
      exact ih
    · by_cases h₂ : k = k₁ <;> simp [aerase, alookup, h₁, h₂] at ih ⊢
      exact ih

theorem alookup_filter_of_pred {α : Type} (k : String) (l : List (String × α))
    (p : String × α → Bool) (e : α) (hl : alookup k l = some e)
    (hp : p (k, e) = true) : alookup k (l.filter p) = some e := by
  induction l with
  | nil => simp [alookup] at hl
  | cons hd tl ih =>
    obtain ⟨k₀, v⟩ := hd
    by_cases h : k = k₀
    · subst h
      simp [alookup] at hl
      subst hl
      simp [List.filter, hp, alookup]
    · simp [alookup, h] at hl
      by_cases hph : p (k₀, v) = true <;>
        simp [List.filter, hph, alookup, h, ih hl]

theorem alookup_filter_mem {α : Type} (k : String) (l : List (String × α))
    (p : String × α → Bool) (e : α) (h : alookup k (l.filter p) = some e) :
    p (k, e) = true := by
  induction l with
  | nil => simp [List.filter, alookup] at h
  | cons hd tl ih =>
    obtain ⟨k₀, v⟩ := hd
    by_cases hph : p (k₀, v) = true
    · by_cases hk : k = k₀
      · subst hk
        simp [List.filter, hph, alookup] at h
        subst h
        exact hph
      · simp [List.filter, hph, alookup, hk] at h
        exact ih h
    · simp [List.filter, hph] at h ⊢
      exact ih h

theorem addTier_eval {α : Type} (names : List String) (label : α)
    (acc : String → Option α) (q : String) :
    addTier names label acc q = if q ∈ names then some label else acc q := by
  induction names generalizing acc with
  | nil => simp [addTier]
  | cons hd tl ih =>
    simp only [addTier, List.foldl_cons] at ih ⊢
    rw [ih]
    by_cases h₁ : q ∈ tl <;> by_cases h₂ : q = hd <;>
      simp [h₁, h₂, List.mem_cons]

/-! Helper lemmas about the installer and the sync loop. -/

theorem validationGate_no_alreadyExists (fs : SkillFiles) (n : String) (sv : Bool)
    (e : InstallOutcome) (h : validationGate fs n sv = some e) :
    e ≠ InstallOutcome.errAlreadyExists := by
  unfold validationGate at h
  by_cases hsv : sv
  · simp [hsv] at h
  · simp only [hsv, Bool.false_eq_true, if_false, ite_false] at h
    cases halookup : alookup "SKILL.md" fs with
    | none =>
      simp [halookup] at h
      rw [← h]
      simp
    | some c =>
      cases hv : ValidateSkillContent c n <;> simp [halookup, hv] at h <;>
        rw [← h] <;> simp

theorem installSkill_success (env : Env) (root : DestRoot) (name : String)
    (sv : Bool) (fs : SkillFiles) (hget : GetSkillWithService env name = some fs)
    (hgate : validationGate fs name sv = none) :
    installSkill env root name true sv =
      (.success, aerase name root ++ [(name, .dir fs)]) := by
  by_cases h : (alookup name root).isSome <;>
    simp [installSkill, hget, hgate, h]

theorem installSkill_state (env : Env) (root : DestRoot) (name : String)
    (force sv : Bool) :
    (installSkill env root name force sv).2 = root ∨
      ∃ fs, GetSkillWithService env name = some fs ∧
        (installSkill env root name force sv).2 =
          aerase name root ++ [(name, .dir fs)] := by
  cases hget : GetSkillWithService env name with
  | none => left; simp [installSkill, hget]
  | some fs =>
    cases hgate : validationGate fs name sv with
    | some e => left; simp [installSkill, hget, hgate]
    | none =>
      by_cases h : (alookup name root).isSome
      · cases force
        · left; simp [installSkill, hget, hgate, h]
        · right; exact ⟨fs, rfl, by simp [installSkill, hget, hgate, h]⟩
      · right; exact ⟨fs, rfl, by simp [installSkill, hget, hgate, h]⟩

theorem installSkill_lookup_other (env : Env) (root : DestRoot) (name m : String)
    (force sv : Bool) (hne : m ≠ name) :
    alookup m (installSkill env root name force sv).2 = alookup m root := by
  rcases installSkill_state env root name force sv with h | ⟨fs, _, h⟩
  · rw [h]
  · rw [h, alookup_append, alookup_aerase_ne m name root hne]
    cases halookup : alookup m root <;> simp [alookup, hne]

theorem installSkill_force_no_alreadyExists (env : Env) (root : DestRoot)
    (name : String) (sv : Bool) :
    (installSkill env root name true sv).1 ≠ .errAlreadyExists := by
  cases hget : GetSkillWithService env name with
  | none => simp [installSkill, hget]
  | some fs =>
    cases hgate : validationGate fs name sv with
    | some e =>
      simpa [installSkill, hget, hgate] using
        validationGate_no_alreadyExists fs name sv e hgate
    | none =>
      by_cases h : (alookup name root).isSome <;>
        simp [installSkill, hget, hgate, h]

theorem syncFold_outcome_names (env : Env) (sv : Bool) (ns : List String)
    (acc : DestRoot × List (String × InstallOutcome)) :
    ((ns.foldl (syncStep env sv) acc).2).map Prod.fst =
      acc.2.map Prod.fst ++ ns := by
  induction ns generalizing acc with
  | nil => simp
  | cons hd tl ih =>
    simp only [List.foldl_cons]
    rw [ih]
    simp [syncStep]

theorem syncFold_no_alreadyExists (env : Env) (sv : Bool) (ns : List String) :
    ∀ acc : DestRoot × List (String × InstallOutcome),
      (∀ p ∈ acc.2, p.2 ≠ InstallOutcome.errAlreadyExists) →
      ∀ p ∈ (ns.foldl (syncStep env sv) acc).2,
        p.2 ≠ InstallOutcome.errAlreadyExists := by
  induction ns with
  | nil => intro acc hacc; simpa using hacc
  | cons hd tl ih =>
    intro acc hacc
    simp only [List.foldl_cons]
    apply ih
    intro p hp
    simp only [syncStep] at hp
    rcases List.mem_append.mp hp with h | h
    · exact hacc p h
    · simp only [List.mem_singleton] at h
      subst h
      exact installSkill_force_no_alreadyExists env acc.1 hd sv

theorem syncFold_lookup_other (env : Env) (sv : Bool) (ns : List String)
    (m : String) :
    ∀ acc : DestRoot × List (String × InstallOutcome), m ∉ ns →
      alookup m (ns.foldl (syncStep env sv) acc).1 = alookup m acc.1 := by
  induction ns with
  | nil => intro acc _; rfl
  | cons hd tl ih =>
    intro acc hm
    simp only [List.mem_cons, not_or] at hm
    simp only [List.foldl_cons]
    rw [ih _ hm.2]
    exact installSkill_lookup_other env acc.1 hd m true sv hm.1

theorem syncFold_success_entry (env : Env) (sv : Bool) (ns : List String)
    (n : String) (fs : SkillFiles)
    (hget : GetSkillWithService env n = some fs)
    (hgate : validationGate fs n sv = none) :
    ∀ acc : DestRoot × List (String × InstallOutcome), ns.Nodup → n ∈ ns →
      alookup n (ns.foldl (syncStep env sv) acc).1 = some (.dir fs) := by
  induction ns with
  | nil => intro acc _ hn; simp at hn
  | cons hd tl ih =>
    intro acc hnodup hn
    rcases List.nodup_cons.mp hnodup with ⟨hhd, htl⟩
    simp only [List.foldl_cons]
    rcases List.mem_cons.mp hn with h | h
    · subst h
      rw [syncFold_lookup_other env sv tl n _ hhd]
      simp [syncStep, installSkill_success env acc.1 n sv fs hget hgate,
        alookup_append, alookup_aerase_self, alookup]
    · exact ih _ htl h

theorem prune_dir_contains (root : DestRoot) (keep : List String) (m : String)
    (d : SkillFiles) (h : alookup m (pruneSkills root keep) = some (.dir d)) :
    keep.contains m = true := by
  unfold pruneSkills at h
  have := alookup_filter_mem m root _ (FsEntry.dir d) h
  simpa using this

theorem prune_keeps_file (root : DestRoot) (keep : List String) (m : String)
    (c : String) (h : alookup m root = some (.file c)) :
    alookup m (pruneSkills root keep) = some (.file c) := by
  unfold pruneSkills
  exact alookup_filter_of_pred m root _ (FsEntry.file c) h rfl

theorem prune_keeps_dir (root : DestRoot) (keep : List String) (m : String)
    (d : SkillFiles) (hmem : keep.contains m = true)
    (h : alookup m root = some (.dir d)) :
    alookup m (pruneSkills root keep) = some (.dir d) := by
  unfold pruneSkills
  exact alookup_filter_of_pred m root _ (FsEntry.dir d) h (by simpa using hmem)

/-! Claim theorems. -/

/-- C3 counterexample: the destination already holds an entry named bad and
overwrite is off, yet installSkill returns a ValidationError rather than
AlreadyExists, because the validation gate runs before the existence check.
The filesystem is unchanged either way. -/
theorem c3_counterexample :
    (alookup "bad" [("bad", FsEntry.dir [])]).isSome = true ∧
    installSkill envBadSkill [("bad", FsEntry.dir [])] "bad" false false =
      (InstallOutcome.errValidation ⟨"bad", [msgNamePattern, msgNameMismatch]⟩,
        [("bad", FsEntry.dir [])]) ∧
    InstallOutcome.errValidation ⟨"bad", [msgNamePattern, msgNameMismatch]⟩ ≠
      InstallOutcome.errAlreadyExists := by
  refine ⟨by decide, by decide, by decide⟩

/-- C3 amended: installing with overwrite off into a destination that already
holds an entry of the artifact name returns AlreadyExists with the filesystem
in exactly its prior state, provided the artifact resolves to files and
passes the validation gate (or validation is skipped); an artifact failing
the gate returns the validation failure instead, also with no filesystem
change. -/
theorem c3_overwrite_gate (env : Env) (root : DestRoot) (name : String)
    (sv : Bool) (fs : SkillFiles)
    (hget : GetSkillWithService env name = some fs)
    (hgate : validationGate fs name sv = none)
    (hex : (alookup name root).isSome = true) :
    installSkill env root name false sv = (.errAlreadyExists, root) := by
  simp [installSkill, hget, hgate, hex]

/-- C3 witness: a concrete run of the overwrite gate on the valid builtin
skill foo with an occupied destination. -/
theorem c3_overwrite_gate_witness :
    installSkill envGoodSkill [("foo", FsEntry.dir [])] "foo" false false =
      (.errAlreadyExists, [("foo", FsEntry.dir [])]) :=
  c3_overwrite_gate envGoodSkill [("foo", FsEntry.dir [])] "foo" false
    [("SKILL.md", goodManifest)] (by decide) (by decide) (by decide)

/-- C4 counterexample: with validation skipped, the artifact x carrying no
SKILL.md entry is not rejected: install materializes it. -/
theorem c4_counterexample :
    installSkill envNoManifest [] "x" false true =
      (InstallOutcome.success, [("x", FsEntry.dir [("README.md", "hi")])]) ∧
    alookup "SKILL.md" [("README.md", "hi")] = none := by
  refine ⟨by decide, by decide⟩

/-- C4 amended: the missing-manifest rejection happens only when validation
is enabled: with skipValidation false, an artifact whose file set has no
SKILL.md entry is rejected at install time with no filesystem change; with
skipValidation true the manifest check is skipped entirely and the artifact
is installed. -/
theorem c4_missing_manifest_rejected (env : Env) (root : DestRoot)
    (name : String) (force : Bool) (fs : SkillFiles)
    (hget : GetSkillWithService env name = some fs)
    (hmf : alookup "SKILL.md" fs = none) :
    installSkill env root name force false = (.errMissingManifest, root) := by
  simp [installSkill, hget, validationGate, hmf]

/-- C4 witness: a concrete rejection of the manifest-less artifact x when
validation is enabled. -/
theorem c4_missing_manifest_witness :
    installSkill envNoManifest [] "x" false false = (.errMissingManifest, []) :=
  c4_missing_manifest_rejected envNoManifest [] "x" false
    [("README.md", "hi")] (by decide) (by decide)

/-- C5: a manifest whose parsed name and description fields are both empty is
rejected in one call with a single ValidationError whose violations list
names both the missing name and the missing description. -/
theorem c5_validation_completeness (content : String) (expectedName : String)
    (md : SkillMetadata) (hparse : parseSkillFrontmatter content = some md)
    (hname : md.name = "") (hdesc : md.description = "") :
    ValidateSkillContent content expectedName =
      .invalid ⟨expectedName, [msgMissingName, msgMissingDescription]⟩ := by
  have hcv : collectViolations md expectedName =
      [msgMissingName, msgMissingDescription] := by
    simp [collectViolations, hname, hdesc]
  simp [ValidateSkillContent, hparse, hcv]

/-- C5 witness: a concrete manifest with neither field set. -/
theorem c5_validation_completeness_witness :
    ValidateSkillContent "---\nfoo: bar\n---\nrest" "e" =
      .invalid ⟨"e", [msgMissingName, msgMissingDescription]⟩ :=
  c5_validation_completeness "---\nfoo: bar\n---\nrest" "e" ⟨"", ""⟩
    (by decide) rfl rfl

/-- C6: installing the same artifact twice with overwrite on succeeds both
times, and both installs leave the destination entry holding exactly the
artifact file set: the second install removes the first directory and writes
the same files fresh, so the final state equals the state after the first
install with no leftovers. -/
theorem c6_install_idempotent (env : Env) (root : DestRoot) (name : String)
    (sv : Bool) (fs : SkillFiles)
    (hget : GetSkillWithService env name = some fs)
    (hgate : validationGate fs name sv = none) :
    installSkill env root name true sv =
      (.success, aerase name root ++ [(name, .dir fs)]) ∧
    installSkill env (aerase name root ++ [(name, .dir fs)]) name true sv =
      (.success, aerase name root ++ [(name, .dir fs)]) ∧
    alookup name (aerase name root ++ [(name, FsEntry.dir fs)]) =
      some (.dir fs) := by
  have herase : aerase name (aerase name root ++ [(name, FsEntry.dir fs)]) =
      aerase name root := by
    simp [aerase, List.filter_append, List.filter_filter]
  refine ⟨installSkill_success env root name sv fs hget hgate, ?_, ?_⟩
  · have h := installSkill_success env
      (aerase name root ++ [(name, FsEntry.dir fs)]) name sv fs hget hgate
    rw [h, herase]
  · rw [alookup_append, alookup_aerase_self]
    simp [alookup]

/-- C6 witness: a concrete double install of the valid builtin skill foo. -/
theorem c6_install_idempotent_witness :
    installSkill envGoodSkill [] "foo" true false =
      (.success, [("foo", FsEntry.dir [("SKILL.md", goodManifest)])]) ∧
    installSkill envGoodSkill [("foo", FsEntry.dir [("SKILL.md", goodManifest)])]
        "foo" true false =
      (.success, [("foo", FsEntry.dir [("SKILL.md", goodManifest)])]) ∧
    alookup "foo" [("foo", FsEntry.dir [("SKILL.md", goodManifest)])] =
      some (.dir [("SKILL.md", goodManifest)]) :=
  c6_install_idempotent envGoodSkill [] "foo" false
    [("SKILL.md", goodManifest)] (by decide) (by decide)

/-- C7: the sync batch installs with force on, so no per-artifact outcome is
ever AlreadyExists, and every resolved name is attempted exactly once in
order regardless of failures of earlier names. -/
theorem c7_sync_best_effort (env : Env) (root : DestRoot) (pr sv : Bool) :
    ((syncCmd env root pr sv).2).map Prod.fst = skillNames env ∧
    ∀ p ∈ (syncCmd env root pr sv).2,
      p.2 ≠ InstallOutcome.errAlreadyExists := by
  constructor
  · simp only [syncCmd, syncInstallAll]
    simpa using syncFold_outcome_names env sv (skillNames env) (root, [])
  · simp only [syncCmd, syncInstallAll]
    exact syncFold_no_alreadyExists env sv (skillNames env) (root, []) (by simp)

/-- C7 witness: a concrete sync over the one-skill environment, with the
no-AlreadyExists fact discharged at the one recorded outcome. -/
theorem c7_sync_best_effort_witness :
    ((syncCmd envGoodSkill [] false false).2).map Prod.fst =
      skillNames envGoodSkill ∧
    ("foo", InstallOutcome.success).2 ≠ InstallOutcome.errAlreadyExists :=
  ⟨(c7_sync_best_effort envGoodSkill [] false false).1,
    (c7_sync_best_effort envGoodSkill [] false false).2
      ("foo", InstallOutcome.success) (by decide)⟩

/-- C2 counterexample: syncing with prune over an empty resolved view leaves
a top-level plain-file entry junk in place, so the top-level entries do not
equal the resolved view names: pruning removes only directories. -/
theorem c2_counterexample :
    skillNames envEmpty = [] ∧
    (syncCmd envEmpty [("junk", FsEntry.file "x")] true false).1 =
      [("junk", FsEntry.file "x")] ∧
    "junk" ∉ skillNames envEmpty := by
  refine ⟨by decide, by decide, by decide⟩

/-- C2 amended: after sync with prune, every top-level directory entry of the
destination is named in the resolved view; every resolved name whose artifact
reads files and passes the validation gate ends as a directory holding
exactly those files; and top-level non-directory entries outside the view are
left untouched. -/
theorem c2_prune_safety :
    (∀ env root sv m d,
      alookup m (syncCmd env root true sv).1 = some (FsEntry.dir d) →
        m ∈ skillNames env) ∧
    (∀ env root sv n fs, n ∈ skillNames env →
      GetSkillWithService env n = some fs → validationGate fs n sv = none →
        alookup n (syncCmd env root true sv).1 = some (FsEntry.dir fs)) ∧
    (∀ env root sv m c, m ∉ skillNames env →
      alookup m root = some (FsEntry.file c) →
        alookup m (syncCmd env root true sv).1 = some (FsEntry.file c)) := by
  refine ⟨?_, ?_, ?_⟩
  · intro env root sv m d h
    simp only [syncCmd, syncInstallAll] at h
    have := prune_dir_contains _ _ m d h
    simpa [List.contains] using this
  · intro env root sv n fs hn hget hgate
    simp only [syncCmd, syncInstallAll]
    apply prune_keeps_dir
    · simpa [List.contains] using hn
    · exact syncFold_success_entry env sv (skillNames env) n fs hget hgate
        (root, []) (List.nodup_dedup _) hn
  · intro env root sv m c hm hfile
    simp only [syncCmd, syncInstallAll]
    apply prune_keeps_file
    rw [syncFold_lookup_other env sv (skillNames env) m (root, []) hm]
    exact hfile

/-- C2 witness: a concrete pruned sync on the one-skill environment with an
orphan directory and a foreign plain file in the destination: foo ends as a
directory holding its files, the foreign file survives, and the installed
directory name is certified to lie in the resolved view. -/
theorem c2_prune_safety_witness :
    alookup "foo" (syncCmd envGoodSkill
        [("orphan", FsEntry.dir []), ("junk", FsEntry.file "x")] true false).1 =
      some (FsEntry.dir [("SKILL.md", goodManifest)]) ∧
    alookup "junk" (syncCmd envGoodSkill
        [("orphan", FsEntry.dir []), ("junk", FsEntry.file "x")] true false).1 =
      some (FsEntry.file "x") ∧
    "foo" ∈ skillNames envGoodSkill := by
  have h1 := c2_prune_safety.2.1 envGoodSkill
    [("orphan", FsEntry.dir []), ("junk", FsEntry.file "x")] false "foo"
    [("SKILL.md", goodManifest)] (by decide) (by decide) (by decide)
  have h2 := c2_prune_safety.2.2 envGoodSkill
    [("orphan", FsEntry.dir []), ("junk", FsEntry.file "x")] false "junk" "x"
    (by decide) (by decide)
  have h3 := c2_prune_safety.1 envGoodSkill
    [("orphan", FsEntry.dir []), ("junk", FsEntry.file "x")] false "foo"
    [("SKILL.md", goodManifest)] h1
  exact ⟨h1, h2, h3⟩

/-- C9: when the parsed name field is empty the validator reports exactly the
one missing-name violation and skips the length, pattern and
directory-mismatch checks for the name; the description length violation can
only arise from a nonempty description, and a nonempty description never
yields the missing-description violation. -/
theorem c9_empty_name_checks_skipped (md : SkillMetadata) (e : String)
    (hname : md.name = "") :
    (collectViolations md e).count msgMissingName = 1 ∧
    msgNameTooLong ∉ collectViolations md e ∧
    msgNamePattern ∉ collectViolations md e ∧
    msgNameMismatch ∉ collectViolations md e ∧
    (md.description = "" → msgDescriptionTooLong ∉ collectViolations md e) ∧
    (md.description ≠ "" → msgMissingDescription ∉ collectViolations md e) := by
  by_cases hd : md.description = ""
  · have hcv : collectViolations md e = [msgMissingName, msgMissingDescription] := by
      simp [collectViolations, hname, hd]
    rw [hcv]
    refine ⟨by decide, by decide, by decide, by decide, fun _ => by decide,
      fun h => absurd hd h⟩
  · by_cases hlen : utf8Len md.description > 1024
    · have hcv : collectViolations md e = [msgMissingName, msgDescriptionTooLong] := by
        simp [collectViolations, hname, hd, hlen]
      rw [hcv]
      refine ⟨by decide, by decide, by decide, by decide,
        fun h => absurd h hd, fun _ => by decide⟩
    · have hcv : collectViolations md e = [msgMissingName] := by
        simp [collectViolations, hname, hd, hlen]
      rw [hcv]
      refine ⟨by decide, by decide, by decide, by decide,
        fun h => absurd h hd, fun _ => by decide⟩

/-- C9 witness: a concrete metadata value with empty name and nonempty
description. -/
theorem c9_empty_name_checks_skipped_witness :
    (collectViolations ⟨"", "x"⟩ "w").count msgMissingName = 1 ∧
    msgNameTooLong ∉ collectViolations ⟨"", "x"⟩ "w" ∧
    msgNamePattern ∉ collectViolations ⟨"", "x"⟩ "w" ∧
    msgNameMismatch ∉ collectViolations ⟨"", "x"⟩ "w" ∧
    ((⟨"", "x"⟩ : SkillMetadata).description = "" →
      msgDescriptionTooLong ∉ collectViolations ⟨"", "x"⟩ "w") ∧
    ((⟨"", "x"⟩ : SkillMetadata).description ≠ "" →
      msgMissingDescription ∉ collectViolations ⟨"", "x"⟩ "w") :=
  c9_empty_name_checks_skipped ⟨"", "x"⟩ "w" rfl

/-- C10: when the notebook-project source lists the skill but its directory
yields zero files, content retrieval does not fail there: it behaves exactly
as the fall-through to the user source and then the builtin tree, and returns
none only when both of those are also exhausted. -/
theorem c10_empty_dir_fallthrough (env : Env) (n : String) (d : SourceDir)
    (hproj : env.projectDir = some d) (hentry : alookup n d = some []) :
    (GetSkillWithService env n =
      match readSkillFromDir env.userDir n with
      | some fs => some fs
      | none => readSkillFromDir (some env.builtin) n) ∧
    (GetSkillWithService env n = none ↔
      readSkillFromDir env.userDir n = none ∧
      readSkillFromDir (some env.builtin) n = none) := by
  have hp : readSkillFromDir env.projectDir n = none := by
    simp [readSkillFromDir, hproj, hentry]
  constructor
  · unfold GetSkillWithService
    rw [hp]
  · unfold GetSkillWithService
    rw [hp]
    cases hu : readSkillFromDir env.userDir n <;> simp

/-- C10 witness: the project source lists foo as an empty directory and the
user source holds a real copy, which retrieval returns. -/
theorem c10_empty_dir_fallthrough_witness :
    GetSkillWithService envEmptyProjectFoo "foo" =
      some [("SKILL.md", goodManifest)] := by
  rw [(c10_empty_dir_fallthrough envEmptyProjectFoo "foo" [("foo", [])]
    rfl (by decide)).1]
  decide

/-! Pointwise characterizations of the two resolver maps. -/

theorem ListSkillSources_eval (env : Env) (q : String) :
    ListSkillSources env q =
      if q ∈ projectNames env then some SourceType.project
      else if q ∈ ecosystemNames env then some SourceType.ecosystem
      else if q ∈ userNames env then some SourceType.user
      else if q ∈ builtinNames env then some SourceType.builtin
      else none := by
  simp [ListSkillSources, addTier_eval]

theorem ListSkillsWithService_eval (env : Env) (q : String) :
    ListSkillsWithService env q =
      if q ∈ projectNames env then some "notebook"
      else if q ∈ userNames env then some "user"
      else if q ∈ builtinNames env then some "builtin"
      else none := by
  simp [ListSkillsWithService, addTier_eval]

/-- C1 counterexample: foo is offered by the user source (rank 1) and the
notebook-ecosystem source (rank 2).  The four-tier resolved view of
ListSkillSources picks the ecosystem source, but content retrieval through
GetSkillWithService returns the user copy and the resolved view of
ListSkillsWithService labels foo as user: neither consults the
notebook-ecosystem tier, so neither selects the maximum rank. -/
theorem c1_counterexample :
    tierHas envUserEco SourceType.user "foo" ∧
    tierHas envUserEco SourceType.ecosystem "foo" ∧
    SourceType.user.rank < SourceType.ecosystem.rank ∧
    ListSkillSources envUserEco "foo" = some SourceType.ecosystem ∧
    GetSkillWithService envUserEco "foo" = some [("SKILL.md", "user copy")] ∧
    ListSkillsWithService envUserEco "foo" = some "user" ∧
    tierFiles envUserEco SourceType.ecosystem "foo" =
      some [("SKILL.md", "ecosystem copy")] := by
  refine ⟨by decide, by decide, by decide, by decide, by decide, by decide,
    by decide⟩

/-- C1 amended: ListSkillSources resolves every name to its maximum-rank
tier over all four sources; ListSkillsWithService and GetSkillWithService
consult only the built-in, user and notebook-project tiers and resolve to
the maximum rank among those three, ignoring the notebook-ecosystem tier. -/
theorem c1_precedence :
    (∀ env n t, tierHas env t n →
      (∀ u, tierHas env u n → u.rank ≤ t.rank) →
      ListSkillSources env n = some t) ∧
    (∀ env n t, t ≠ SourceType.ecosystem → tierHas env t n →
      (∀ u, u ≠ SourceType.ecosystem → tierHas env u n → u.rank ≤ t.rank) →
      ListSkillsWithService env n = some (tierLabel t)) ∧
    (∀ env n t fs, t ≠ SourceType.ecosystem → tierFiles env t n = some fs →
      (∀ u, u ≠ SourceType.ecosystem → t.rank < u.rank →
        tierFiles env u n = none) →
      GetSkillWithService env n = some fs) := by
  refine ⟨?_, ?_, ?_⟩
  · intro env n t hmem hmax
    cases t with
    | project =>
      have hp : n ∈ projectNames env := hmem
      rw [ListSkillSources_eval, if_pos hp]
    | ecosystem =>
      have hnp : n ∉ projectNames env := by
        intro hc
        have h := hmax SourceType.project hc
        simp [SourceType.rank] at h
      have he : n ∈ ecosystemNames env := hmem
      rw [ListSkillSources_eval, if_neg hnp, if_pos he]
    | user =>
      have hnp : n ∉ projectNames env := by
        intro hc
        have h := hmax SourceType.project hc
        simp [SourceType.rank] at h
      have hne : n ∉ ecosystemNames env := by
        intro hc
        have h := hmax SourceType.ecosystem hc
        simp [SourceType.rank] at h
      have hu : n ∈ userNames env := hmem
      rw [ListSkillSources_eval, if_neg hnp, if_neg hne, if_pos hu]
    | builtin =>
      have hnp : n ∉ projectNames env := by
        intro hc
        have h := hmax SourceType.project hc
        simp [SourceType.rank] at h
      have hne : n ∉ ecosystemNames env := by
        intro hc
        have h := hmax SourceType.ecosystem hc
        simp [SourceType.rank] at h
      have hnu : n ∉ userNames env := by
        intro hc
        have h := hmax SourceType.user hc
        simp [SourceType.rank] at h
      have hb : n ∈ builtinNames env := hmem
      rw [ListSkillSources_eval, if_neg hnp, if_neg hne, if_neg hnu, if_pos hb]
  · intro env n t ht hmem hmax
    cases t with
    | ecosystem => exact absurd rfl ht
    | project =>
      have hp : n ∈ projectNames env := hmem
      rw [ListSkillsWithService_eval, if_pos hp]
      rfl
    | user =>
      have hnp : n ∉ projectNames env := by
        intro hc
        have h := hmax SourceType.project (by simp) hc
        simp [SourceType.rank] at h
      have hu : n ∈ userNames env := hmem
      rw [ListSkillsWithService_eval, if_neg hnp, if_pos hu]
      rfl
    | builtin =>
      have hnp : n ∉ projectNames env := by
        intro hc
        have h := hmax SourceType.project (by simp) hc
        simp [SourceType.rank] at h
      have hnu : n ∉ userNames env := by
        intro hc
        have h := hmax SourceType.user (by simp) hc
        simp [SourceType.rank] at h
      have hb : n ∈ builtinNames env := hmem
      rw [ListSkillsWithService_eval, if_neg hnp, if_neg hnu, if_pos hb]
      rfl
  · intro env n t fs ht hfiles hno
    cases t with
    | ecosystem => exact absurd rfl ht
    | project =>
      have hp : readSkillFromDir env.projectDir n = some fs := hfiles
      unfold GetSkillWithService
      rw [hp]
    | user =>
      have hp : readSkillFromDir env.projectDir n = none :=
        hno SourceType.project (by simp) (by simp [SourceType.rank])
      have hu : readSkillFromDir env.userDir n = some fs := hfiles
      unfold GetSkillWithService
      rw [hp, hu]
    | builtin =>
      have hp : readSkillFromDir env.projectDir n = none :=
        hno SourceType.project (by simp) (by simp [SourceType.rank])
      have hu : readSkillFromDir env.userDir n = none :=
        hno SourceType.user (by simp) (by simp [SourceType.rank])
      unfold GetSkillWithService
      rw [hp, hu]
      exact hfiles

/-- C1 witness: the three conjuncts applied to the one-skill builtin
environment, where builtin is trivially the maximum occupied rank. -/
theorem c1_precedence_witness :
    ListSkillSources envGoodSkill "foo" = some SourceType.builtin ∧
    ListSkillsWithService envGoodSkill "foo" = some (tierLabel SourceType.builtin) ∧
    GetSkillWithService envGoodSkill "foo" = some [("SKILL.md", goodManifest)] := by
  refine ⟨c1_precedence.1 envGoodSkill "foo" SourceType.builtin (by decide) ?_,
    c1_precedence.2.1 envGoodSkill "foo" SourceType.builtin (by decide)
      (by decide) ?_,
    c1_precedence.2.2 envGoodSkill "foo" SourceType.builtin
      [("SKILL.md", goodManifest)] (by decide) (by decide) ?_⟩
  · intro u hu
    cases u <;> revert hu <;> decide
  · intro u hne hu
    cases u <;> revert hu <;> decide
  · intro u hne hlt
    cases u <;> revert hne hlt <;> decide

/-- C8: the ecosystem sync fails with a scope-requirement error before any
install whenever the current workspace is not an ecosystem; the child set is
exactly the workspaces whose direct parent-ecosystem or transitive
root-ecosystem path equals the ecosystem path, excluding worktrees and the
ecosystem node itself; a nonempty child set is synced in full and an empty
child set is reported as success, not as an error.  The last two conjuncts
carry the realizability hypothesis that the builtin source is nonempty: the
embed directive compiles the data/skills tree into the binary, so every real
invocation resolves at least the builtin skills and the empty-skill early
return of the command is unreachable. -/
theorem c8_ecosystem_scope :
    (∀ ps env node, ps.current = some node → node.isEcosystem = false →
      ecosystemSync (some ps) env = .errNotEcosystem ∧
      EcoSyncResult.isScopeError .errNotEcosystem = true) ∧
    (∀ ps node p, p ∈ childProjects ps node ↔
      p ∈ ps.all ∧
        (p.parentEcosystemPath = node.path ∨ p.rootEcosystemPath = node.path) ∧
        p.isWorktree = false ∧ p.path ≠ node.path) ∧
    (∀ ps env node, ps.current = some node → env.builtin ≠ [] →
      node.isEcosystem = true → childProjects ps node ≠ [] →
      ecosystemSync (some ps) env = .synced (childProjects ps node)) ∧
    (∀ ps env node, ps.current = some node → env.builtin ≠ [] →
      node.isEcosystem = true → childProjects ps node = [] →
      ecosystemSync (some ps) env = .doneNoChildren ∧
      EcoSyncResult.isScopeError .doneNoChildren = false) := by
  have hnonempty : ∀ env : Env, env.builtin ≠ [] → skillNames env ≠ [] := by
    intro env hbuiltin
    rcases List.exists_mem_of_ne_nil env.builtin hbuiltin with ⟨p, hp⟩
    apply List.ne_nil_of_mem (a := p.1)
    unfold skillNames
    rw [List.mem_dedup]
    apply List.mem_append_left
    apply List.mem_append_left
    exact List.mem_map_of_mem Prod.fst hp
  refine ⟨?_, ?_, ?_, ?_⟩
  · intro ps env node hcur hkind
    refine ⟨?_, rfl⟩
    simp [ecosystemSync, hcur, hkind]
  · intro ps node p
    simp only [childProjects, List.mem_filter, Bool.and_eq_true,
      Bool.or_eq_true, beq_iff_eq, Bool.not_eq_true', bne_iff_ne, ne_eq]
    tauto
  · intro ps env node hcur hbuiltin hkind hchild
    simp [ecosystemSync, hcur, hkind, List.isEmpty_iff, hnonempty env hbuiltin,
      hchild]
  · intro ps env node hcur hbuiltin hkind hchild
    refine ⟨?_, rfl⟩
    simp [ecosystemSync, hcur, hkind, List.isEmpty_iff, hnonempty env hbuiltin,
      hchild]

/-- C8 witness: concrete runs over the one-builtin-skill environment: a
non-ecosystem current workspace is refused, the one eligible child is in the
characterized child set, an ecosystem root with that child syncs to exactly
the child set, and an ecosystem root with no children reports the
no-children success. -/
theorem c8_ecosystem_scope_witness :
    ecosystemSync
        (some { all := [ecoNode, childNode], current := some childNode })
        envGoodSkill = .errNotEcosystem ∧
    childNode ∈ childProjects ecoProvider ecoNode ∧
    ecosystemSync (some ecoProvider) envGoodSkill =
      .synced (childProjects ecoProvider ecoNode) ∧
    ecosystemSync (some { all := [ecoNode], current := some ecoNode })
      envGoodSkill = .doneNoChildren := by
  refine ⟨(c8_ecosystem_scope.1
      { all := [ecoNode, childNode], current := some childNode }
      envGoodSkill childNode rfl (by decide)).1, ?_, ?_, ?_⟩
  · exact (c8_ecosystem_scope.2.1 ecoProvider ecoNode childNode).mpr
      (by refine ⟨by decide, ?_, by decide, by decide⟩; left; decide)
  · exact c8_ecosystem_scope.2.2.1 ecoProvider envGoodSkill ecoNode rfl
      (by decide) (by decide) (by decide)
  · exact (c8_ecosystem_scope.2.2.2
      { all := [ecoNode], current := some ecoNode }
      envGoodSkill ecoNode rfl (by decide) (by decide) (by decide)).1
